import Mathlib

/-!
Verification development for a sector-rotation backtesting program.

The development shallowly embeds the analytical core of the repository
(strategy.py and backtest.py) over exact rational arithmetic.  Panels are
indexed by positions 0, 1, 2, ... of the trading-day calendar; a missing
value (NaN in the source) is modelled by Option.  Transcendental primitives
of the source (float square root and float power) are taken as parameters,
since they have no exact rational counterpart; every other operation is
translated directly from the source.
-/

/-- Epsilon constant 1e-6 used by the source to protect divisions. -/
def epsQ : ℚ := 1 / 1000000

/-- Mean of a list of values, as pandas mean: sum divided by count. -/
def listMean (l : List ℚ) : ℚ := l.sum / l.length

/-- Sample variance with ddof 1, the quantity under the square root of the
pandas std. -/
def sampleVar (l : List ℚ) : ℚ :=
  (l.map (fun x => (x - listMean l) ^ 2)).sum / ((l.length : ℚ) - 1)

/-- Pandas sample standard deviation (ddof 1): NaN (none) on fewer than two
observations, otherwise the square root of the sample variance.  The square
root primitive sq is a parameter. -/
def sampleStd (sq : ℚ → ℚ) (l : List ℚ) : Option ℚ :=
  if 2 ≤ l.length then some (sq (sampleVar l)) else none

section BacktestModel

variable {nA : ℕ}

/-- backtest.py run: asset daily percentage returns, prices.pct_change().
The first row is missing (NaN). -/
def asset_returns (p : ℕ → Fin nA → ℚ) (t : ℕ) (a : Fin nA) : Option ℚ :=
  if t = 0 then none else some (p t a / p (t - 1) a - 1)

/-- backtest.py run: portfolio daily return, (weights * asset_returns).sum(axis=1).
The pandas row sum skips missing products, so the all-missing first row sums
to zero. -/
def portRet (p w : ℕ → Fin nA → ℚ) (t : ℕ) : ℚ :=
  ∑ a : Fin nA, (asset_returns p t a).elim 0 (fun r => w t a * r)

/-- The portfolio returns series produced by run on a price panel of n rows:
one value per row of the panel. -/
def portRetSeries (nA n : ℕ) (p w : ℕ → Fin nA → ℚ) : List ℚ :=
  (List.range n).map (portRet p w)

/-- Running product f 0 * f 1 * ... * f t, the pandas cumprod. -/
def cumprodQ (f : ℕ → ℚ) : ℕ → ℚ
  | 0 => f 0
  | t + 1 => cumprodQ f t * f (t + 1)

/-- backtest.py run: equity curve, (1 + portfolio_returns).cumprod() * initial_capital. -/
def equity_curve (cap : ℚ) (r : ℕ → ℚ) (t : ℕ) : ℚ :=
  cumprodQ (fun u => 1 + r u) t * cap

end BacktestModel

/-- backtest.py calculate_metrics: drawdown series of a returns list, carrying
the running cumulative return and the running peak. -/
def ddList : List ℚ → ℚ → Option ℚ → List ℚ
  | [], _, _ => []
  | r :: rest, cum, peak =>
    let c := cum * (1 + r)
    let pk := match peak with
      | none => c
      | some q => max q c
    ((c - pk) / pk) :: ddList rest c (some pk)

/-- backtest.py calculate_metrics: max drawdown, the minimum of the drawdown
series.  The head of a nonempty drawdown series is zero, so folding min from
zero computes the series minimum. -/
def max_drawdown (l : List ℚ) : ℚ := (ddList l 1 none).foldl min 0

/-- The record of named statistics returned by calculate_metrics.  Volatility
and Sharpe ratio are missing (NaN in the source) when the standard deviation
of the returns is undefined. -/
structure Metrics where
  totalReturn : ℚ
  annualizedReturn : ℚ
  volatility : Option ℚ
  sharpe : Option ℚ
  maxDrawdown : ℚ
  deriving DecidableEq

/-- backtest.py calculate_metrics, with rpow the float power primitive and sq
the float square root primitive.  Returns none (the empty dict of the source)
when the series has fewer than one observation. -/
def calculate_metrics (rpow : ℚ → ℚ → ℚ) (sq : ℚ → ℚ) (returns : List ℚ) :
    Option Metrics :=
  if returns.length < 1 then none
  else
    let total := (returns.map (fun r => r + 1)).prod - 1
    let sd := sampleStd sq returns
    let daily_rf := rpow (1 + 6 / 100) (1 / 252) - 1
    some
      { totalReturn := total
        annualizedReturn := rpow (1 + total) (252 / (returns.length : ℚ)) - 1
        volatility := sd.map (fun s => s * sq 252)
        sharpe := sd.map (fun s => (listMean returns - daily_rf) / s * sq 252)
        maxDrawdown := max_drawdown returns }

/-- C3 counterexample panel: two trading days, one asset, prices 1 then 2. -/
def cexPrices3 : ℕ → Fin 1 → ℚ := fun t _ => if t = 0 then 1 else 2

/-- C3 counterexample weights: constant weight one. -/
def cexWeights3 : ℕ → Fin 1 → ℚ := fun _ _ => 1

/-- C3: the claim states that the returns series has one entry fewer than the
price panel, the first date being dropped.  On a two-day panel the series
produced by run has two entries, not one: the first row is kept with value
zero, because the pandas row sum skips the missing first-day asset returns. -/
theorem c3_counterexample :
    (portRetSeries 1 2 cexPrices3 cexWeights3).length = 2 ∧
      (portRetSeries 1 2 cexPrices3 cexWeights3).length ≠ 2 - 1 := by
  constructor
  · simp [portRetSeries]
  · simp [portRetSeries]

/-- C3 amended: run produces one portfolio return per price-panel row (n
entries, not n - 1); the first entry is 0 because the undefined first-day
asset returns are skipped by the row sum, and every later entry equals the
sum over assets of weight t a * (price t a / price (t-1) a - 1). -/
theorem c3_run_series {nA : ℕ} (n : ℕ) (p w : ℕ → Fin nA → ℚ) (t : ℕ)
    (ht : t ≠ 0) :
    (portRetSeries nA n p w).length = n ∧
      portRet p w 0 = 0 ∧
      portRet p w t = ∑ a : Fin nA, w t a * (p t a / p (t - 1) a - 1) := by
  refine ⟨by simp [portRetSeries], ?_, ?_⟩
  · simp [portRet, asset_returns]
  · unfold portRet asset_returns
    simp [ht]

/-- C3 witness: the amended statement evaluated on the two-day one-asset
panel, at the second row. -/
theorem c3_witness :
    (portRetSeries 1 2 cexPrices3 cexWeights3).length = 2 ∧
      portRet cexPrices3 cexWeights3 0 = 0 ∧
      portRet cexPrices3 cexWeights3 1 =
        ∑ a : Fin 1, cexWeights3 1 a *
          (cexPrices3 1 a / cexPrices3 0 a - 1) :=
  c3_run_series 2 cexPrices3 cexWeights3 1 (by decide)

/-- C8: round trip of the equity curve: the value at row T equals the initial
capital times the product of (1 + portfolio return) over all rows up to T,
for the portfolio returns computed by run. -/
theorem c8_equity_roundtrip {nA : ℕ} (cap : ℚ) (p w : ℕ → Fin nA → ℚ)
    (T : ℕ) :
    equity_curve cap (portRet p w) T =
      cap * ∏ t ∈ Finset.range (T + 1), (1 + portRet p w t) := by
  induction T with
  | zero => simp [equity_curve, cumprodQ, mul_comm]
  | succ T ih =>
    rw [Finset.prod_range_succ]
    unfold equity_curve cumprodQ
    unfold equity_curve at ih
    rw [mul_right_comm, ih]
    ring

/-- C9: calculate_metrics returns the empty result exactly on a zero-length
returns series, and a populated record on every nonempty series; it is a
total function, so no error is raised. -/
theorem c9_metrics_empty (rpow : ℚ → ℚ → ℚ) (sq : ℚ → ℚ) (l : List ℚ) :
    calculate_metrics rpow sq l = none ↔ l = [] := by
  unfold calculate_metrics
  rcases l with _ | ⟨r, rest⟩ <;> simp

/-- C10: on a single-observation returns series of value r, calculate_metrics
defines Total Return as r and Annualized Return as (1 + r) ^ 252 - 1, while
Volatility and Sharpe Ratio are missing, the sample standard deviation of one
observation being undefined; the max drawdown of the singleton series is 0.
The hypothesis states that the power primitive agrees with iterated
multiplication on natural exponents. -/
theorem c10_single_metrics (rpow : ℚ → ℚ → ℚ) (sq : ℚ → ℚ) (r : ℚ)
    (hpow : ∀ (x : ℚ) (k : ℕ), rpow x (k : ℚ) = x ^ k) :
    calculate_metrics rpow sq [r] =
      some
        { totalReturn := r
          annualizedReturn := (1 + r) ^ (252 : ℕ) - 1
          volatility := none
          sharpe := none
          maxDrawdown := 0 } := by
  unfold calculate_metrics sampleStd max_drawdown ddList
  norm_num
  refine ⟨?_, by simp [ddList]⟩
  have h := hpow (1 + r) 252
  norm_num at h
  exact h

/-- Concrete power primitive for witnesses: interprets a rational exponent
with unit denominator as a natural-number power. -/
def rpowNat (x y : ℚ) : ℚ := x ^ y.num.toNat

/-- rpowNat agrees with iterated multiplication on natural exponents. -/
theorem rpowNat_natCast (x : ℚ) (k : ℕ) : rpowNat x (k : ℚ) = x ^ k := by
  unfold rpowNat
  norm_num

/-- C10 witness: the single-observation metrics statement evaluated at the
concrete return 1/100 with the concrete power primitive. -/
theorem c10_witness :
    calculate_metrics rpowNat (fun _ => 0) [1 / 100] =
      some
        { totalReturn := 1 / 100
          annualizedReturn := (1 + 1 / 100) ^ (252 : ℕ) - 1
          volatility := none
          sharpe := none
          maxDrawdown := 0 } :=
  c10_single_metrics rpowNat (fun _ => 0) (1 / 100) rpowNat_natCast

/-- strategy.py calculate_rsi: the positive part of the one-day price change,
delta.where(delta greater than 0, 0).  At the first row the change is missing
and the where call replaces it by 0. -/
def gain (s : ℕ → ℚ) (t : ℕ) : ℚ :=
  if t = 0 then 0 else max (s t - s (t - 1)) 0

/-- strategy.py calculate_rsi: the magnitude of the negative part of the
one-day price change, -delta.where(delta less than 0, 0). -/
def lossAbs (s : ℕ → ℚ) (t : ℕ) : ℚ :=
  if t = 0 then 0 else max (s (t - 1) - s t) 0

/-- Pandas rolling(w).mean() over a total series: missing until w
observations are available, then the mean of the trailing window. -/
def rollingMean (f : ℕ → ℚ) (w t : ℕ) : Option ℚ :=
  if w ≤ t + 1 then some (((List.range w).map (fun j => f (t - j))).sum / w) else none

/-- The 14-day trailing average of positive price changes. -/
def avgGain (s : ℕ → ℚ) (t : ℕ) : ℚ :=
  ((List.range 14).map (fun j => gain s (t - j))).sum / 14

/-- The 14-day trailing average magnitude of negative price changes. -/
def avgLoss (s : ℕ → ℚ) (t : ℕ) : ℚ :=
  ((List.range 14).map (fun j => lossAbs s (t - j))).sum / 14

/-- strategy.py calculate_rsi: rs = gain / (loss + 1e-6), mapped through
100 - 100 / (1 + rs); missing until the rolling means are defined. -/
def calculate_rsi (s : ℕ → ℚ) (t : ℕ) : Option ℚ :=
  (rollingMean (gain s) 14 t).bind fun g =>
    (rollingMean (lossAbs s) 14 t).map fun l => 100 - 100 / (1 + g / (l + epsQ))

/-- The strictly increasing integer price series used as concrete input. -/
def natSeries : ℕ → ℚ := fun t => (t : ℚ)

/-- C4 counterexample: on the strictly increasing series, at row 14, the
trailing average gain is 1 and the trailing average loss is 0, and the factor
computed by calculate_rsi differs from the claimed value
100 - 100 / (1 + ratio) with ratio = avgGain / (avgGain + avgLoss + eps):
the code divides the average gain by (avgLoss + eps) alone, not by the sum
of both averages and eps. -/
theorem c4_counterexample :
    avgGain natSeries 14 = 1 ∧ avgLoss natSeries 14 = 0 ∧
      calculate_rsi natSeries 14 ≠
        some (100 - 100 /
          (1 + avgGain natSeries 14 /
            (avgGain natSeries 14 + avgLoss natSeries 14 + epsQ))) := by
  have hg : avgGain natSeries 14 = 1 := by
    unfold avgGain gain natSeries
    simp [List.range_succ]
  have hl : avgLoss natSeries 14 = 0 := by
    unfold avgLoss lossAbs natSeries
    simp [List.range_succ]
  refine ⟨hg, hl, ?_⟩
  rw [hg, hl]
  norm_num [calculate_rsi, rollingMean, gain, lossAbs, natSeries,
    List.range_succ, epsQ]

/-- C4 amended: per asset, at every row with at least 14 prior observations,
calculate_rsi yields 100 - 100 / (1 + ratio) where ratio is the 14-day
trailing average of positive changes divided by (the 14-day trailing average
magnitude of negative changes plus the epsilon 1e-6). -/
theorem c4_rsi_formula (s : ℕ → ℚ) (t : ℕ) (ht : 14 ≤ t) :
    calculate_rsi s t =
      some (100 - 100 / (1 + avgGain s t / (avgLoss s t + epsQ))) := by
  unfold calculate_rsi rollingMean avgGain avgLoss
  have h : 14 ≤ t + 1 := by omega
  simp [h]

/-- C4 witness: the amended formula evaluated on the strictly increasing
series at row 14. -/
theorem c4_witness :
    calculate_rsi natSeries 14 =
      some (100 - 100 / (1 + avgGain natSeries 14 / (avgLoss natSeries 14 + epsQ))) :=
  c4_rsi_formula natSeries 14 (by decide)

section ScorerModel

variable {nA : ℕ}

/-- The non-missing values of one date row of a factor table, in asset-column
order: the values pandas row statistics are taken over. -/
def presentRow (T : ℕ → Fin nA → Option ℚ) (t : ℕ) : List ℚ :=
  (List.finRange nA).filterMap fun a => T t a

/-- strategy.py compute_scores zscore: subtract the row mean across assets and
divide by the row standard deviation plus 1e-6; missing where the entry or the
row standard deviation is missing. -/
def zscoreT (sq : ℚ → ℚ) (T : ℕ → Fin nA → Option ℚ) (t : ℕ) (a : Fin nA) :
    Option ℚ :=
  (T t a).bind fun v =>
    (sampleStd sq (presentRow T t)).map fun sd =>
      (v - listMean (presentRow T t)) / (sd + epsQ)

/-- strategy.py compute_scores: composite score
0.3 * z_mom + 0.3 * (-z_val) + 0.2 * z_rsi + 0.2 * (-z_vol), missing where any
factor z-score is missing, then the macro overlay added elementwise when
present. -/
def compute_scores (sq : ℚ → ℚ) (mom vol rsiT val : ℕ → Fin nA → Option ℚ)
    (overlay : Option (ℕ → Fin nA → ℚ)) (t : ℕ) (a : Fin nA) : Option ℚ :=
  let base :=
    match zscoreT sq mom t a, zscoreT sq vol t a,
        zscoreT sq rsiT t a, zscoreT sq val t a with
    | some zm, some zv, some zr, some zx =>
        some ((3 / 10) * zm + (3 / 10) * (-zx) + (2 / 10) * zr + (2 / 10) * (-zv))
    | _, _, _, _ => none
  match overlay with
  | none => base
  | some ov => base.map fun sc => sc + ov t a

end ScorerModel

/-- C7: at every date and asset where the four factors and the four row
standard deviations are defined, the composite score equals
0.3 * z_momentum + 0.3 * (-z_value) + 0.2 * z_rsi + 0.2 * (-z_volatility),
each z being the factor value minus the across-asset row mean divided by
(the across-asset row standard deviation plus 1e-6); the regime overlay, when
present, is added elementwise without being normalized. -/
theorem c7_composite_formula {nA : ℕ} (sq : ℚ → ℚ)
    (mom vol rsiT val : ℕ → Fin nA → Option ℚ)
    (overlay : Option (ℕ → Fin nA → ℚ)) (t : ℕ) (a : Fin nA)
    (vm vv vr vx sm sv sr sx : ℚ)
    (hvm : mom t a = some vm) (hsm : sampleStd sq (presentRow mom t) = some sm)
    (hvv : vol t a = some vv) (hsv : sampleStd sq (presentRow vol t) = some sv)
    (hvr : rsiT t a = some vr) (hsr : sampleStd sq (presentRow rsiT t) = some sr)
    (hvx : val t a = some vx) (hsx : sampleStd sq (presentRow val t) = some sx) :
    compute_scores sq mom vol rsiT val overlay t a =
      some ((3 / 10) * ((vm - listMean (presentRow mom t)) / (sm + epsQ))
        + (3 / 10) * (-((vx - listMean (presentRow val t)) / (sx + epsQ)))
        + (2 / 10) * ((vr - listMean (presentRow rsiT t)) / (sr + epsQ))
        + (2 / 10) * (-((vv - listMean (presentRow vol t)) / (sv + epsQ)))
        + (match overlay with | none => 0 | some ov => ov t a)) := by
  unfold compute_scores zscoreT
  rw [hvm, hvv, hvr, hvx, hsm, hsv, hsr, hsx]
  cases overlay <;> simp

/-- Constant factor table used for the C7 witness. -/
def constTbl (q : ℚ) : ℕ → Fin 2 → Option ℚ := fun _ _ => some q

/-- C7 witness: the composite formula evaluated on constant two-asset factor
tables with an overlay, with the zero square-root primitive. -/
theorem c7_witness :
    compute_scores (fun _ => 0) (constTbl 1) (constTbl 2) (constTbl 3)
        (constTbl 4) (some fun _ _ => 5) 0 0 =
      some ((3 / 10) * ((1 - listMean (presentRow (constTbl 1) 0)) / (0 + epsQ))
        + (3 / 10) * (-((4 - listMean (presentRow (constTbl 4) 0)) / (0 + epsQ)))
        + (2 / 10) * ((3 - listMean (presentRow (constTbl 3) 0)) / (0 + epsQ))
        + (2 / 10) * (-((2 - listMean (presentRow (constTbl 2) 0)) / (0 + epsQ)))
        + (match (some fun _ _ => (5 : ℚ) : Option (ℕ → Fin 2 → ℚ)) with
            | none => 0
            | some ov => ov 0 0)) :=
  c7_composite_formula (fun _ => 0) (constTbl 1) (constTbl 2) (constTbl 3)
    (constTbl 4) (some fun _ _ => 5) 0 0 1 2 3 4 0 0 0 0
    rfl rfl rfl rfl rfl rfl rfl rfl

/-- Input of the Allocator stage (strategy.py get_signal_df): the number n of
trading days, the selection size K (top_k), the trading-day calendar idx
(position to date, strictly increasing in the intended reading), the calendar
month of a date, the calendar month-end date of a month, and the composite
score table indexed by trading-day position and asset. -/
structure AllocInput (nA : ℕ) where
  n : ℕ
  K : ℕ
  idx : ℕ → ℕ
  month : ℕ → ℕ
  monthEnd : ℕ → ℕ
  scores : ℕ → Fin nA → Option ℚ

section AllocModel

variable {nA : ℕ}

/-- Month of the first date of the panel: first bin of resample(ME). -/
def mFirst (c : AllocInput nA) : ℕ := c.month (c.idx 0)

/-- Month of the last date of the panel: last bin of resample(ME). -/
def mLast (c : AllocInput nA) : ℕ := c.month (c.idx (c.n - 1))

/-- Trading-day positions falling in calendar month m. -/
def monthPositions (c : AllocInput nA) (m : ℕ) : List ℕ :=
  (List.range c.n).filter fun p => c.month (c.idx p) == m

/-- strategy.py get_signal_df: scores.resample(ME).last() — the last
non-missing score of the month for each asset, missing when the asset has no
valid score in the month. -/
def monthlyScore (c : AllocInput nA) (m : ℕ) (a : Fin nA) : Option ℚ :=
  (monthPositions c m).foldl
    (fun acc p =>
      match c.scores p a with
      | none => acc
      | some v => some v)
    none

/-- strategy.py get_signal_df: row.dropna() — the assets with a valid monthly
score, in column order. -/
def validAssets (c : AllocInput nA) (m : ℕ) : List (Fin nA) :=
  (List.finRange nA).filter fun a => (monthlyScore c m a).isSome

/-- len(valid_scores). -/
def validCount (c : AllocInput nA) (m : ℕ) : ℕ := (validAssets c m).length

/-- The score of a valid asset (getD only hit at valid assets). -/
def scoreVal (c : AllocInput nA) (m : ℕ) (a : Fin nA) : ℚ :=
  (monthlyScore c m a).getD 0

/-- strategy.py get_signal_df: the valid assets stably sorted by descending
monthly score, as the sort underlying nlargest. -/
def rankedAssets (c : AllocInput nA) (m : ℕ) : List (Fin nA) :=
  (validAssets c m).mergeSort fun a b => decide (scoreVal c m b ≤ scoreVal c m a)

/-- valid_scores.nlargest(top_k).index: the first K of the ranked assets. -/
def topAssets (c : AllocInput nA) (m : ℕ) : List (Fin nA) :=
  (rankedAssets c m).take c.K

/-- The monthly weight row: all zero when fewer than K assets have valid
scores (the loop continues), otherwise 1/K on the selected assets and 0
elsewhere. -/
def monthlyWeight (c : AllocInput nA) (m : ℕ) (a : Fin nA) : ℚ :=
  if validCount c m < c.K then 0
  else if a ∈ topAssets c m then 1 / (c.K : ℚ) else 0

/-- weights.reindex(prices.index): the month whose resample(ME) label equals
the date at position p, if any.  Labels are the calendar month-end dates of
the months spanned by the panel. -/
def rebalMonthAt (c : AllocInput nA) (p : ℕ) : Option ℕ :=
  ((List.range (mLast c + 1)).filter fun m =>
    decide (mFirst c ≤ m) && (c.monthEnd m == c.idx p)).head?

/-- .ffill(): the month of the latest position up to i whose date is a
resample(ME) label, if any. -/
def lastRebal (c : AllocInput nA) : ℕ → Option ℕ
  | 0 => rebalMonthAt c 0
  | i + 1 =>
    match rebalMonthAt c (i + 1) with
    | some m => some m
    | none => lastRebal c i

/-- strategy.py get_signal_df: the daily weight series,
weights.reindex(prices.index).ffill().shift(1).fillna(0), at position i and
asset a. -/
def get_signal_df (c : AllocInput nA) (i : ℕ) (a : Fin nA) : ℚ :=
  if i = 0 then 0
  else
    match lastRebal c (i - 1) with
    | none => 0
    | some m => monthlyWeight c m a

/-- A some value of the forward fill comes from a rebalance label at some
position up to i. -/
theorem lastRebal_exists (c : AllocInput nA) :
    ∀ i m, lastRebal c i = some m → ∃ j, j ≤ i ∧ rebalMonthAt c j = some m := by
  intro i
  induction i with
  | zero => exact fun m h => ⟨0, le_refl 0, h⟩
  | succ i ih =>
    intro m h
    unfold lastRebal at h
    cases hr : rebalMonthAt c (i + 1) with
    | some m' =>
      rw [hr] at h
      exact ⟨i + 1, le_refl _, Eq.trans hr h⟩
    | none =>
      rw [hr] at h
      obtain ⟨j, hj, hjr⟩ := ih m h
      exact ⟨j, Nat.le_succ_of_le hj, hjr⟩

/-- A rebalance label at position j forward fills up to every later position
with no label in between. -/
theorem lastRebal_of_segment (c : AllocInput nA) (j m : ℕ)
    (hj : rebalMonthAt c j = some m) :
    ∀ i, j ≤ i → (∀ l, j < l → l ≤ i → rebalMonthAt c l = none) →
      lastRebal c i = some m := by
  intro i
  induction i with
  | zero =>
    intro hij _
    have : j = 0 := Nat.le_zero.mp hij
    subst this
    exact hj
  | succ i ih =>
    intro hij hnone
    rcases Nat.lt_or_ge j (i + 1) with hlt | hge
    · have hcur : rebalMonthAt c (i + 1) = none :=
        hnone (i + 1) hlt (le_refl _)
      unfold lastRebal
      rw [hcur]
      exact ih (Nat.lt_succ_iff.mp hlt)
        (fun l hl hli => hnone l hl (Nat.le_succ_of_le hli))
    · have : j = i + 1 := Nat.le_antisymm hij hge
      subst this
      unfold lastRebal
      rw [hj]

/-- The indicator sum of a duplicate-free list of assets. -/
theorem sum_ite_mem_list (L : List (Fin nA)) (x : ℚ) (hL : L.Nodup) :
    (∑ a : Fin nA, if a ∈ L then x else 0) = L.length * x := by
  classical
  have h1 : (∑ a : Fin nA, if a ∈ L then x else 0)
      = ∑ a : Fin nA, if a ∈ L.toFinset then x else 0 := by
    refine Finset.sum_congr rfl fun a _ => ?_
    simp [List.mem_toFinset]
  rw [h1, Finset.sum_ite_mem, Finset.univ_inter, Finset.sum_const,
    List.toFinset_card_of_nodup hL, nsmul_eq_mul]

/-- The selected assets are pairwise distinct. -/
theorem topAssets_nodup (c : AllocInput nA) (m : ℕ) : (topAssets c m).Nodup := by
  have hperm : (rankedAssets c m).Perm (validAssets c m) :=
    List.mergeSort_perm _ _
  have hva : (validAssets c m).Nodup :=
    List.Nodup.filter _ (List.nodup_finRange nA)
  have hr : (rankedAssets c m).Nodup := hperm.nodup_iff.mpr hva
  exact hr.sublist (List.take_sublist _ _)

/-- When at least K assets are valid, exactly K are selected. -/
theorem topAssets_length (c : AllocInput nA) (m : ℕ)
    (h : c.K ≤ validCount c m) : (topAssets c m).length = c.K := by
  unfold topAssets rankedAssets
  rw [List.length_take, List.length_mergeSort]
  exact Nat.min_eq_left h

/-- Row sum of a skipped month is zero. -/
theorem monthlyWeight_sum_skip (c : AllocInput nA) (m : ℕ)
    (h : validCount c m < c.K) :
    (∑ a : Fin nA, monthlyWeight c m a) = 0 := by
  unfold monthlyWeight
  simp [if_pos h]

/-- Row sum of a fully selected month is one. -/
theorem monthlyWeight_sum_full (c : AllocInput nA) (m : ℕ)
    (h : c.K ≤ validCount c m) (hK : 0 < c.K) :
    (∑ a : Fin nA, monthlyWeight c m a) = 1 := by
  unfold monthlyWeight
  rw [Finset.sum_congr rfl
    (fun a _ => if_neg (Nat.not_lt.mpr h))]
  rw [sum_ite_mem_list _ _ (topAssets_nodup c m), topAssets_length c m h]
  have hK0 : ((c.K : ℚ)) ≠ 0 := by
    exact_mod_cast Nat.pos_iff_ne_zero.mp hK
  field_simp

/-- Daily weights on a day governed by a forward-filled rebalance row. -/
theorem get_signal_df_some (c : AllocInput nA) {i m : ℕ} (hi : i ≠ 0)
    (hl : lastRebal c (i - 1) = some m) (a : Fin nA) :
    get_signal_df c i a = monthlyWeight c m a := by
  unfold get_signal_df
  rw [if_neg hi, hl]

/-- Daily weights are zero on the first day and before any rebalance label. -/
theorem get_signal_df_zero (c : AllocInput nA) {i : ℕ}
    (h : i = 0 ∨ lastRebal c (i - 1) = none) (a : Fin nA) :
    get_signal_df c i a = 0 := by
  unfold get_signal_df
  by_cases hi : i = 0
  · rw [if_pos hi]
  · rcases h with h | h
    · exact absurd h hi
    · rw [if_neg hi, h]

/-- C5: invariants of the daily weight series: every weight is 0 or exactly
1/K; every row sum is at most 1; the row sum is 1 on days governed by a fully
selected rebalance; rows governed by a skipped rebalance are all zero; and
weights are zero on the first day and on days before any rebalance label. -/
theorem c5_weight_invariants (c : AllocInput nA) (i : ℕ) (hK : 0 < c.K) :
    (∀ a, get_signal_df c i a = 0 ∨ get_signal_df c i a = 1 / (c.K : ℚ))
    ∧ (∑ a : Fin nA, get_signal_df c i a) ≤ 1
    ∧ (∀ m, i ≠ 0 → lastRebal c (i - 1) = some m → c.K ≤ validCount c m →
        (∑ a : Fin nA, get_signal_df c i a) = 1)
    ∧ (∀ m, i ≠ 0 → lastRebal c (i - 1) = some m → validCount c m < c.K →
        ∀ a, get_signal_df c i a = 0)
    ∧ ((i = 0 ∨ lastRebal c (i - 1) = none) → ∀ a, get_signal_df c i a = 0) := by
  by_cases hi : i = 0
  · refine ⟨fun a => Or.inl (get_signal_df_zero c (Or.inl hi) a), ?_,
      fun m hm => absurd hi hm, fun m hm => absurd hi hm,
      fun _ a => get_signal_df_zero c (Or.inl hi) a⟩
    rw [Finset.sum_congr rfl fun a _ => get_signal_df_zero c (Or.inl hi) a]
    simp
  · cases hl : lastRebal c (i - 1) with
    | none =>
      refine ⟨fun a => Or.inl (get_signal_df_zero c (Or.inr hl) a), ?_,
        fun m _ hm => Option.noConfusion hm,
        fun m _ hm => Option.noConfusion hm,
        fun _ a => get_signal_df_zero c (Or.inr hl) a⟩
      rw [Finset.sum_congr rfl fun a _ => get_signal_df_zero c (Or.inr hl) a]
      simp
    | some m0 =>
      have hg : ∀ a, get_signal_df c i a = monthlyWeight c m0 a :=
        fun a => get_signal_df_some c hi hl a
      have hsum : (∑ a : Fin nA, get_signal_df c i a)
          = ∑ a : Fin nA, monthlyWeight c m0 a :=
        Finset.sum_congr rfl fun a _ => hg a
      refine ⟨?_, ?_, ?_, ?_, ?_⟩
      · intro a
        rw [hg a]
        unfold monthlyWeight
        by_cases h1 : validCount c m0 < c.K
        · exact Or.inl (if_pos h1)
        · rw [if_neg h1]
          by_cases h2 : a ∈ topAssets c m0
          · exact Or.inr (if_pos h2)
          · exact Or.inl (if_neg h2)
      · rw [hsum]
        by_cases h1 : validCount c m0 < c.K
        · rw [monthlyWeight_sum_skip c m0 h1]
          norm_num
        · rw [monthlyWeight_sum_full c m0 (Nat.not_lt.mp h1) hK]
      · intro m _ hm hcnt
        injection hm with hm
        subst hm
        rw [hsum]
        exact monthlyWeight_sum_full c m0 hcnt hK
      · intro m _ hm hcnt a
        injection hm with hm
        subst hm
        rw [hg a]
        unfold monthlyWeight
        rw [if_pos hcnt]
      · intro h
        rcases h with h | h
        · exact absurd h hi
        · exact Option.noConfusion h

/-- C5 witness configuration: two assets over two trading days 29 and 30 in a
30-day-month calendar; both assets have valid scores in month 0, whose
month-end day 29 is a trading day. -/
def wCfg : AllocInput 2 where
  n := 2
  K := 1
  idx := fun p => if p = 0 then 29 else 30
  month := fun d => d / 30
  monthEnd := fun m => 30 * m + 29
  scores := fun p a => if p = 0 then (if a.val = 0 then some 1 else some 0) else none

/-- C5 witness: on the concrete configuration the day after the fully
selected rebalance has row sum one. -/
theorem c5_witness : (∑ a : Fin 2, get_signal_df wCfg 1 a) = 1 :=
  (c5_weight_invariants wCfg 1 (by decide)).2.2.1 0 (by decide) (by decide)
    (by decide)

/-- C1 counterexample configuration: trading days 29, 59, 60 in a
30-day-month calendar; asset 0 has a valid score in month 0 (rebalanced at
its month-end day 29), no asset has a valid score in month 1 (whose month-end
day 59 is a trading day), so the month-1 rebalance is skipped. -/
def cexSkip : AllocInput 2 where
  n := 3
  K := 1
  idx := fun p => if p = 0 then 29 else if p = 1 then 59 else 60
  month := fun d => d / 30
  monthEnd := fun m => 30 * m + 29
  scores := fun p a => if p = 0 then (if a.val = 0 then some 1 else none) else none

/-- C1: the claim states that after a skipped rebalance the previous weights
persist by forward-fill.  On the concrete configuration, month 1 has zero
valid scores (fewer than K = 1), asset 0 is held with weight 1 on day 59,
and on day 60 - governed by the skipped month-1 row - its weight is 0, not
the persisting previous weight: the skipped monthly row is an actual all-zero
row, not a missing row, so the forward-fill propagates zeros. -/
theorem c1_counterexample :
    validCount cexSkip 1 = 0 ∧ 0 < cexSkip.K ∧
      get_signal_df cexSkip 1 0 = 1 ∧
      get_signal_df cexSkip 2 0 = 0 ∧
      get_signal_df cexSkip 2 0 ≠ get_signal_df cexSkip 1 0 := by
  have hl0 : lastRebal cexSkip 0 = some 0 := by decide
  have hl1 : lastRebal cexSkip 1 = some 1 := by decide
  have hva : validAssets cexSkip 0 = [0] := by decide
  have htop : topAssets cexSkip 0 = [0] := by
    unfold topAssets rankedAssets
    rw [hva, List.mergeSort_singleton]
    rfl
  have hw1 : get_signal_df cexSkip 1 0 = 1 := by
    rw [get_signal_df_some cexSkip (by decide) hl0]
    unfold monthlyWeight
    rw [if_neg (by decide), if_pos (by rw [htop]; exact List.mem_singleton.mpr rfl)]
    norm_num [cexSkip]
  have hw2 : get_signal_df cexSkip 2 0 = 0 := by
    rw [get_signal_df_some cexSkip (by decide) hl1]
    unfold monthlyWeight
    rw [if_pos (by decide)]
  refine ⟨by decide, by decide, hw1, hw2, ?_⟩
  rw [hw1, hw2]
  norm_num

/-- C1 amended: when fewer than K assets have a valid monthly score, the
monthly rebalance is skipped and no error is raised, but the skipped monthly
row is all zero rather than missing; consequently every day whose
forward-filled governing label is the skipped month carries all-zero weights
(the previous weights do not persist once the skipped label is a trading
day). -/
theorem c1_skip_behavior (c : AllocInput nA) (m : ℕ)
    (h : validCount c m < c.K) :
    (∀ a, monthlyWeight c m a = 0) ∧
      (∀ i a, i ≠ 0 → lastRebal c (i - 1) = some m → get_signal_df c i a = 0) := by
  constructor
  · intro a
    unfold monthlyWeight
    rw [if_pos h]
  · intro i a hi hl
    rw [get_signal_df_some c hi hl]
    unfold monthlyWeight
    rw [if_pos h]

/-- C1 witness: the amended statement evaluated on the concrete skipped-month
configuration at day 60 and asset 0. -/
theorem c1_witness : get_signal_df cexSkip 2 0 = 0 :=
  (c1_skip_behavior cexSkip 1 (by decide)).2 2 0 (by decide) (by decide)

/-- C2 counterexample configuration: trading days 29, 58, 60 in a
30-day-month calendar; asset 0 is the valid selection of month 0 and asset 1
the valid selection of month 1, but the month-1 month-end day 59 is not a
trading day. -/
def cexDrop : AllocInput 2 where
  n := 3
  K := 1
  idx := fun p => if p = 0 then 29 else if p = 1 then 58 else 60
  month := fun d => d / 30
  monthEnd := fun m => 30 * m + 29
  scores := fun p a =>
    if p = 0 then (if a.val = 0 then some 1 else none)
    else if p = 1 then (if a.val = 1 then some 1 else none)
    else none

/-- C2: the claim states that every trading day strictly after a month-end
carries that month-end rebalance weights regardless of whether the month-end
date is a trading day.  On the concrete configuration, month 1 selects asset
1 with target weight 1, but its month-end day 59 is not a trading day, so
reindexing to the trading calendar drops the month-1 row and day 60 carries
the month-0 weights instead: asset 1 holds 0 rather than 1. -/
theorem c2_counterexample :
    cexDrop.K ≤ validCount cexDrop 1 ∧
      monthlyWeight cexDrop 1 1 = 1 ∧
      get_signal_df cexDrop 2 1 = 0 ∧
      get_signal_df cexDrop 2 1 ≠ monthlyWeight cexDrop 1 1 := by
  have hl : lastRebal cexDrop 1 = some 0 := by decide
  have hva1 : validAssets cexDrop 1 = [1] := by decide
  have hva0 : validAssets cexDrop 0 = [0] := by decide
  have htop1 : topAssets cexDrop 1 = [1] := by
    unfold topAssets rankedAssets
    rw [hva1, List.mergeSort_singleton]
    rfl
  have htop0 : topAssets cexDrop 0 = [0] := by
    unfold topAssets rankedAssets
    rw [hva0, List.mergeSort_singleton]
    rfl
  have hm1 : monthlyWeight cexDrop 1 1 = 1 := by
    unfold monthlyWeight
    rw [if_neg (by decide), if_pos (by rw [htop1]; exact List.mem_singleton.mpr rfl)]
    norm_num [cexDrop]
  have hw : get_signal_df cexDrop 2 1 = 0 := by
    rw [get_signal_df_some cexDrop (by decide) hl]
    unfold monthlyWeight
    rw [if_neg (by decide), if_neg (by rw [htop0]; decide)]
  refine ⟨by decide, hm1, hw, ?_⟩
  rw [hm1, hw]
  norm_num

/-- C2 amended: the monthly decision is forward filled and shifted by one
trading day, provided the month-end label is itself a trading day: if the
date at position j is the resample label of month m, the selection of month m
was made, and no label lies strictly between positions j and i - 1, then the
day at position i carries the month-m target weights, 1/K on the selected K
assets and 0 elsewhere. -/
theorem c2_carry_after_label (c : AllocInput nA) (j m i : ℕ) (a : Fin nA)
    (hj : rebalMonthAt c j = some m) (hji : j < i)
    (hseg : ∀ l, j < l → l ≤ i - 1 → rebalMonthAt c l = none)
    (hsel : c.K ≤ validCount c m) :
    get_signal_df c i a = if a ∈ topAssets c m then 1 / (c.K : ℚ) else 0 := by
  have hi : i ≠ 0 := by omega
  have hlr : lastRebal c (i - 1) = some m :=
    lastRebal_of_segment c j m hj (i - 1) (by omega) hseg
  rw [get_signal_df_some c hi hlr]
  unfold monthlyWeight
  rw [if_neg (Nat.not_lt.mpr hsel)]

/-- C2 witness: the amended carry statement evaluated on the concrete
configuration, for the month-0 label at position 0 and day position 2. -/
theorem c2_witness :
    get_signal_df cexDrop 2 0 =
      if (0 : Fin 2) ∈ topAssets cexDrop 0 then 1 / (cexDrop.K : ℚ) else 0 :=
  c2_carry_after_label cexDrop 0 0 2 0 (by decide) (by decide)
    (fun l h1 h2 => by
      have hl1 : l = 1 := by omega
      subst hl1
      decide)
    (by decide)

/-- strategy.py calculate_factors: momentum, prices.pct_change(252), missing
for the first 252 rows. -/
def momentum (s : ℕ → ℚ) (t : ℕ) : Option ℚ :=
  if 252 ≤ t then some (s t / s (t - 252) - 1) else none

/-- One-day percentage return of a series, prices.pct_change(), as the value
used inside defined rolling windows. -/
def dailyRet (s : ℕ → ℚ) (t : ℕ) : ℚ := s t / s (t - 1) - 1

/-- strategy.py calculate_factors: volatility,
prices.pct_change().rolling(126).std(); defined once the trailing 126 daily
returns all exist, that is from row 126 on (the first return is missing). -/
def volatilityF (sq : ℚ → ℚ) (s : ℕ → ℚ) (t : ℕ) : Option ℚ :=
  if 126 ≤ t then sampleStd sq ((List.range 126).map fun j => dailyRet s (t - j))
  else none

/-- strategy.py calculate_factors: value proxy,
(prices - sma5y) / (sma5y + 1e-6) with sma5y the 1260-day rolling mean. -/
def value_proxy (s : ℕ → ℚ) (t : ℕ) : Option ℚ :=
  (rollingMean s 1260 t).map fun sma => (s t - sma) / (sma + epsQ)

/-- strategy.py get_macro_regime: a macro series is above its own 50-day
moving average; False while the average is missing (a NaN comparison is
False in pandas). -/
def flagAbove (s : ℕ → ℚ) (t : ℕ) : Bool :=
  match rollingMean s 50 t with
  | none => false
  | some m => decide (m < s t)

section PipelineModel

variable {nA : ℕ}

/-- strategy.py get_macro_regime: the additive regime adjustment: +0.5 on IT
columns and +0.5 on PHARMA columns when the currency is above its MA50, -0.5
on AUTO columns when the commodity is above its MA50.  Sector membership of
the asset columns is abstracted by the three boolean flags. -/
def regimeAdj (itF phF autF : Fin nA → Bool) (usd crude : ℕ → ℚ) (t : ℕ)
    (a : Fin nA) : ℚ :=
  (if flagAbove usd t && itF a then 1 / 2 else 0)
    + (if flagAbove usd t && phF a then 1 / 2 else 0)
    + (if flagAbove crude t && autF a then -(1 / 2) else 0)

/-- The composite score table of the full signal pipeline: compute_scores
applied to the four factor tables of calculate_factors and the macro
overlay. -/
def pipelineScores (sq : ℚ → ℚ) (itF phF autF : Fin nA → Bool)
    (prices : ℕ → Fin nA → ℚ) (usd crude : ℕ → ℚ) : ℕ → Fin nA → Option ℚ :=
  compute_scores sq
    (fun t a => momentum (fun u => prices u a) t)
    (fun t a => volatilityF sq (fun u => prices u a) t)
    (fun t a => calculate_rsi (fun u => prices u a) t)
    (fun t a => value_proxy (fun u => prices u a) t)
    (some (regimeAdj itF phF autF usd crude))

/-- SectorStrategy.get_signal_df end to end: the Allocator applied to the
pipeline scores. -/
def strategyDaily (sq : ℚ → ℚ) (itF phF autF : Fin nA → Bool) (n K : ℕ)
    (idx month monthEnd : ℕ → ℕ) (prices : ℕ → Fin nA → ℚ)
    (usd crude : ℕ → ℚ) (i : ℕ) (a : Fin nA) : ℚ :=
  get_signal_df
    { n := n, K := K, idx := idx, month := month, monthEnd := monthEnd,
      scores := pipelineScores sq itF phF autF prices usd crude } i a

end PipelineModel

/-- Rolling means agree when the series agree up to the window end. -/
theorem rollingMean_congr {s1 s2 : ℕ → ℚ} {T : ℕ}
    (hs : ∀ u, u ≤ T → s1 u = s2 u) (w t : ℕ) (ht : t ≤ T) :
    rollingMean s1 w t = rollingMean s2 w t := by
  unfold rollingMean
  by_cases hc : w ≤ t + 1
  · rw [if_pos hc, if_pos hc]
    have hm : (List.range w).map (fun j => s1 (t - j))
        = (List.range w).map (fun j => s2 (t - j)) :=
      List.map_congr_left fun j _ => hs (t - j) (le_trans (Nat.sub_le t j) ht)
    rw [hm]
  · rw [if_neg hc, if_neg hc]

/-- Momentum agrees when the price series agree up to the row. -/
theorem momentum_congr {s1 s2 : ℕ → ℚ} {T : ℕ}
    (hs : ∀ u, u ≤ T → s1 u = s2 u) (t : ℕ) (ht : t ≤ T) :
    momentum s1 t = momentum s2 t := by
  unfold momentum
  by_cases hc : 252 ≤ t
  · rw [if_pos hc, if_pos hc, hs t ht, hs (t - 252) (le_trans (Nat.sub_le t 252) ht)]
  · rw [if_neg hc, if_neg hc]

/-- Volatility agrees when the price series agree up to the row. -/
theorem volatilityF_congr (sq : ℚ → ℚ) {s1 s2 : ℕ → ℚ} {T : ℕ}
    (hs : ∀ u, u ≤ T → s1 u = s2 u) (t : ℕ) (ht : t ≤ T) :
    volatilityF sq s1 t = volatilityF sq s2 t := by
  unfold volatilityF
  by_cases hc : 126 ≤ t
  · rw [if_pos hc, if_pos hc]
    have hm : (List.range 126).map (fun j => dailyRet s1 (t - j))
        = (List.range 126).map (fun j => dailyRet s2 (t - j)) := by
      refine List.map_congr_left fun j _ => ?_
      have h1 : t - j ≤ T := le_trans (Nat.sub_le t j) ht
      have h2 : t - j - 1 ≤ T := le_trans (Nat.sub_le (t - j) 1) h1
      unfold dailyRet
      rw [hs (t - j) h1, hs (t - j - 1) h2]
    rw [hm]
  · rw [if_neg hc, if_neg hc]

/-- The positive change agrees when the series agree up to the row. -/
theorem gain_congr {s1 s2 : ℕ → ℚ} {T : ℕ}
    (hs : ∀ u, u ≤ T → s1 u = s2 u) (u : ℕ) (hu : u ≤ T) :
    gain s1 u = gain s2 u := by
  unfold gain
  by_cases hc : u = 0
  · rw [if_pos hc, if_pos hc]
  · rw [if_neg hc, if_neg hc, hs u hu, hs (u - 1) (le_trans (Nat.sub_le u 1) hu)]

/-- The negative-change magnitude agrees when the series agree up to the row. -/
theorem lossAbs_congr {s1 s2 : ℕ → ℚ} {T : ℕ}
    (hs : ∀ u, u ≤ T → s1 u = s2 u) (u : ℕ) (hu : u ≤ T) :
    lossAbs s1 u = lossAbs s2 u := by
  unfold lossAbs
  by_cases hc : u = 0
  · rw [if_pos hc, if_pos hc]
  · rw [if_neg hc, if_neg hc, hs u hu, hs (u - 1) (le_trans (Nat.sub_le u 1) hu)]

/-- The trend oscillator agrees when the price series agree up to the row. -/
theorem calculate_rsi_congr {s1 s2 : ℕ → ℚ} {T : ℕ}
    (hs : ∀ u, u ≤ T → s1 u = s2 u) (t : ℕ) (ht : t ≤ T) :
    calculate_rsi s1 t = calculate_rsi s2 t := by
  unfold calculate_rsi
  rw [rollingMean_congr (fun u hu => gain_congr hs u hu) 14 t ht,
    rollingMean_congr (fun u hu => lossAbs_congr hs u hu) 14 t ht]

/-- The value proxy agrees when the price series agree up to the row. -/
theorem value_proxy_congr {s1 s2 : ℕ → ℚ} {T : ℕ}
    (hs : ∀ u, u ≤ T → s1 u = s2 u) (t : ℕ) (ht : t ≤ T) :
    value_proxy s1 t = value_proxy s2 t := by
  unfold value_proxy
  rw [rollingMean_congr hs 1260 t ht, hs t ht]

/-- The regime flag agrees when the macro series agree up to the row. -/
theorem flagAbove_congr {s1 s2 : ℕ → ℚ} {T : ℕ}
    (hs : ∀ u, u ≤ T → s1 u = s2 u) (t : ℕ) (ht : t ≤ T) :
    flagAbove s1 t = flagAbove s2 t := by
  unfold flagAbove
  rw [rollingMean_congr hs 50 t ht, hs t ht]

/-- The present row of a factor table only depends on the row values. -/
theorem presentRow_congr {nA : ℕ} {T1 T2 : ℕ → Fin nA → Option ℚ} {t : ℕ}
    (h : ∀ b, T1 t b = T2 t b) : presentRow T1 t = presentRow T2 t := by
  unfold presentRow
  exact congrArg (fun f => (List.finRange nA).filterMap f) (funext h)

/-- The cross-sectional z-score only depends on the row values. -/
theorem zscoreT_congr {nA : ℕ} (sq : ℚ → ℚ) {T1 T2 : ℕ → Fin nA → Option ℚ}
    {t : ℕ} (h : ∀ b, T1 t b = T2 t b) (a : Fin nA) :
    zscoreT sq T1 t a = zscoreT sq T2 t a := by
  unfold zscoreT
  rw [h a, presentRow_congr h]

/-- The composite score at one cell only depends on the same-date factor rows
and the same-date overlay value. -/
theorem compute_scores_congr {nA : ℕ} (sq : ℚ → ℚ)
    {m1 v1 r1 x1 m2 v2 r2 x2 : ℕ → Fin nA → Option ℚ}
    {f1 f2 : ℕ → Fin nA → ℚ} {t : ℕ} {a : Fin nA}
    (hm : ∀ b, m1 t b = m2 t b) (hv : ∀ b, v1 t b = v2 t b)
    (hr : ∀ b, r1 t b = r2 t b) (hx : ∀ b, x1 t b = x2 t b)
    (hf : f1 t a = f2 t a) :
    compute_scores sq m1 v1 r1 x1 (some f1) t a
      = compute_scores sq m2 v2 r2 x2 (some f2) t a := by
  unfold compute_scores
  rw [zscoreT_congr sq hm a, zscoreT_congr sq hv a, zscoreT_congr sq hr a,
    zscoreT_congr sq hx a]
  exact congrArg (fun g => Option.map g _) (funext fun sc => by rw [hf])

/-- The pipeline score at one cell only depends on prices and macro values up
to that date. -/
theorem pipelineScores_congr {nA : ℕ} (sq : ℚ → ℚ)
    (itF phF autF : Fin nA → Bool) {p1 p2 : ℕ → Fin nA → ℚ}
    {usd1 crude1 usd2 crude2 : ℕ → ℚ} {T : ℕ}
    (hp : ∀ u, u ≤ T → ∀ b, p1 u b = p2 u b)
    (husd : ∀ u, u ≤ T → usd1 u = usd2 u)
    (hcrude : ∀ u, u ≤ T → crude1 u = crude2 u)
    (t : ℕ) (ht : t ≤ T) (a : Fin nA) :
    pipelineScores sq itF phF autF p1 usd1 crude1 t a
      = pipelineScores sq itF phF autF p2 usd2 crude2 t a := by
  unfold pipelineScores
  refine compute_scores_congr sq (fun b => ?_) (fun b => ?_) (fun b => ?_)
    (fun b => ?_) ?_
  · exact momentum_congr (fun u hu => hp u hu b) t ht
  · exact volatilityF_congr sq (fun u hu => hp u hu b) t ht
  · exact calculate_rsi_congr (fun u hu => hp u hu b) t ht
  · exact value_proxy_congr (fun u hu => hp u hu b) t ht
  · unfold regimeAdj
    rw [flagAbove_congr husd t ht, flagAbove_congr hcrude t ht]

/-- The last-of-month fold only depends on the folded values at the listed
positions. -/
theorem foldl_lastSome_congr (f g : ℕ → Option ℚ) :
    ∀ (l : List ℕ), (∀ p ∈ l, f p = g p) → ∀ init : Option ℚ,
      l.foldl (fun acc p => match f p with | none => acc | some v => some v) init
        = l.foldl (fun acc p => match g p with | none => acc | some v => some v)
            init := by
  intro l
  induction l with
  | nil => intro _ _; rfl
  | cons hd tl ih =>
    intro h init
    simp only [List.foldl_cons]
    rw [h hd (List.mem_cons_self hd tl)]
    exact ih (fun p hp => h p (List.mem_cons_of_mem hd hp)) _

/-- The monthly resampled score only depends on the scores at the positions
of that month. -/
theorem monthlyScore_congr {nA : ℕ} (n K : ℕ) (idx month monthEnd : ℕ → ℕ)
    (s1 s2 : ℕ → Fin nA → Option ℚ) (m : ℕ) (a : Fin nA)
    (h : ∀ p, p ∈ monthPositions
        (⟨n, K, idx, month, monthEnd, s1⟩ : AllocInput nA) m → s1 p a = s2 p a) :
    monthlyScore (⟨n, K, idx, month, monthEnd, s1⟩ : AllocInput nA) m a
      = monthlyScore (⟨n, K, idx, month, monthEnd, s2⟩ : AllocInput nA) m a := by
  unfold monthlyScore
  exact foldl_lastSome_congr (fun p => s1 p a) (fun p => s2 p a) _ h none

/-- The monthly weight row only depends on the scores at the positions of
that month. -/
theorem monthlyWeight_congr {nA : ℕ} (n K : ℕ) (idx month monthEnd : ℕ → ℕ)
    (s1 s2 : ℕ → Fin nA → Option ℚ) (m : ℕ)
    (h : ∀ p, p ∈ monthPositions
        (⟨n, K, idx, month, monthEnd, s1⟩ : AllocInput nA) m →
        ∀ b, s1 p b = s2 p b) :
    ∀ a, monthlyWeight (⟨n, K, idx, month, monthEnd, s1⟩ : AllocInput nA) m a
      = monthlyWeight (⟨n, K, idx, month, monthEnd, s2⟩ : AllocInput nA) m a := by
  have hms : ∀ b,
      monthlyScore (⟨n, K, idx, month, monthEnd, s1⟩ : AllocInput nA) m b
        = monthlyScore (⟨n, K, idx, month, monthEnd, s2⟩ : AllocInput nA) m b :=
    fun b => monthlyScore_congr n K idx month monthEnd s1 s2 m b
      (fun p hp => h p hp b)
  have hva : validAssets (⟨n, K, idx, month, monthEnd, s1⟩ : AllocInput nA) m
      = validAssets (⟨n, K, idx, month, monthEnd, s2⟩ : AllocInput nA) m := by
    unfold validAssets
    exact List.filter_congr fun b _ => by rw [hms b]
  have hcmp : (fun (a b : Fin nA) =>
      decide (scoreVal (⟨n, K, idx, month, monthEnd, s1⟩ : AllocInput nA) m b
        ≤ scoreVal (⟨n, K, idx, month, monthEnd, s1⟩ : AllocInput nA) m a))
      = (fun (a b : Fin nA) =>
      decide (scoreVal (⟨n, K, idx, month, monthEnd, s2⟩ : AllocInput nA) m b
        ≤ scoreVal (⟨n, K, idx, month, monthEnd, s2⟩ : AllocInput nA) m a)) := by
    funext a b
    unfold scoreVal
    rw [hms a, hms b]
  have htop : topAssets (⟨n, K, idx, month, monthEnd, s1⟩ : AllocInput nA) m
      = topAssets (⟨n, K, idx, month, monthEnd, s2⟩ : AllocInput nA) m := by
    unfold topAssets rankedAssets
    rw [hva, hcmp]
  intro a
  unfold monthlyWeight validCount
  rw [hva, htop]

/-- The reindex labels do not depend on the score table. -/
theorem rebalMonthAt_indep {nA : ℕ} (n K : ℕ) (idx month monthEnd : ℕ → ℕ)
    (s1 s2 : ℕ → Fin nA → Option ℚ) (p : ℕ) :
    rebalMonthAt (⟨n, K, idx, month, monthEnd, s1⟩ : AllocInput nA) p
      = rebalMonthAt (⟨n, K, idx, month, monthEnd, s2⟩ : AllocInput nA) p := rfl

/-- The forward-fill labels do not depend on the score table. -/
theorem lastRebal_indep {nA : ℕ} (n K : ℕ) (idx month monthEnd : ℕ → ℕ)
    (s1 s2 : ℕ → Fin nA → Option ℚ) :
    ∀ k, lastRebal (⟨n, K, idx, month, monthEnd, s1⟩ : AllocInput nA) k
      = lastRebal (⟨n, K, idx, month, monthEnd, s2⟩ : AllocInput nA) k := by
  intro k
  induction k with
  | zero => rfl
  | succ k ih =>
    unfold lastRebal
    rw [ih]
    rfl

/-- A reindex label of month m sits at the month-end date of m. -/
theorem rebalMonthAt_monthEnd {nA : ℕ} (c : AllocInput nA) (j m : ℕ)
    (h : rebalMonthAt c j = some m) : c.monthEnd m = c.idx j := by
  unfold rebalMonthAt at h
  have hm : m ∈ (List.range (mLast c + 1)).filter fun m =>
      decide (mFirst c ≤ m) && (c.monthEnd m == c.idx j) :=
    List.mem_of_mem_head? (by rw [h]; rfl)
  have hpred := (List.mem_filter.mp hm).2
  have h2 := ((Bool.and_eq_true _ _).mp hpred).2
  exact beq_iff_eq.mp h2

/-- A position of month m carries a date at most the month-end of m. -/
theorem monthPositions_le {nA : ℕ} (c : AllocInput nA) (m p : ℕ)
    (hme : ∀ d, d ≤ c.monthEnd (c.month d))
    (hp : p ∈ monthPositions c m) : c.idx p ≤ c.monthEnd m := by
  unfold monthPositions at hp
  have hpm := (List.mem_filter.mp hp).2
  have : c.month (c.idx p) = m := beq_iff_eq.mp hpm
  calc c.idx p ≤ c.monthEnd (c.month (c.idx p)) := hme (c.idx p)
    _ = c.monthEnd m := by rw [this]

/-- C6: no lookahead, two-run statement: for two price panels (and macro
panels) on the same strictly increasing trading calendar that agree on all
rows up to and including row T and differ arbitrarily afterwards, the daily
weight series of the full signal pipeline agrees on every row up to and
including row T + 1: a day holds weights determined only by information as
of the prior close, so perturbing future prices never changes past weights.
The calendar hypotheses say that the trading dates are strictly increasing
and that every date is at most the month-end of its own month. -/
theorem c6_no_lookahead {nA : ℕ} (sq : ℚ → ℚ) (itF phF autF : Fin nA → Bool)
    (n K : ℕ) (idx month monthEnd : ℕ → ℕ)
    (p1 p2 : ℕ → Fin nA → ℚ) (usd1 crude1 usd2 crude2 : ℕ → ℚ) (T : ℕ)
    (hidx : StrictMono idx)
    (hme : ∀ d, d ≤ monthEnd (month d))
    (hp : ∀ t, t ≤ T → ∀ a, p1 t a = p2 t a)
    (husd : ∀ t, t ≤ T → usd1 t = usd2 t)
    (hcrude : ∀ t, t ≤ T → crude1 t = crude2 t) :
    ∀ i, i ≤ T + 1 → ∀ a,
      strategyDaily sq itF phF autF n K idx month monthEnd p1 usd1 crude1 i a
        = strategyDaily sq itF phF autF n K idx month monthEnd p2 usd2 crude2 i a := by
  intro i hi a
  have hsc : ∀ t, t ≤ T → ∀ b,
      pipelineScores sq itF phF autF p1 usd1 crude1 t b
        = pipelineScores sq itF phF autF p2 usd2 crude2 t b :=
    fun t ht b => pipelineScores_congr sq itF phF autF hp husd hcrude t ht b
  unfold strategyDaily get_signal_df
  by_cases hi0 : i = 0
  · rw [if_pos hi0, if_pos hi0]
  · rw [if_neg hi0, if_neg hi0]
    have hlr := lastRebal_indep n K idx month monthEnd
      (pipelineScores sq itF phF autF p1 usd1 crude1)
      (pipelineScores sq itF phF autF p2 usd2 crude2) (i - 1)
    rw [← hlr]
    cases hr : lastRebal
        (⟨n, K, idx, month, monthEnd,
          pipelineScores sq itF phF autF p1 usd1 crude1⟩ : AllocInput nA)
        (i - 1) with
    | none => rfl
    | some m =>
      obtain ⟨j, hjle, hj⟩ := lastRebal_exists _ (i - 1) m hr
      have hMEj : monthEnd m = idx j := rebalMonthAt_monthEnd _ j m hj
      refine monthlyWeight_congr n K idx month monthEnd _ _ m ?_ a
      intro p hpmem b
      have hple : idx p ≤ monthEnd m := monthPositions_le _ m p hme hpmem
      have hpj : p ≤ j := by
        rw [hMEj] at hple
        exact hidx.le_iff_le.mp hple
      have hpT : p ≤ T := by omega
      exact hsc p hpT b

/-- C6 witness: the no-lookahead statement applied to two concrete one-asset
two-day runs on the identity calendar with two-day months, whose prices agree
on row 0 and differ on row 1, evaluated at row 1. -/
theorem c6_witness :
    strategyDaily (fun _ => 0) (fun _ => false) (fun _ => false) (fun _ => false)
        2 1 (fun d => d) (fun d => d / 2) (fun m => 2 * m + 1)
        (fun _ (_ : Fin 1) => (1 : ℚ)) (fun _ => 0) (fun _ => 0) 1 0
      = strategyDaily (fun _ => 0) (fun _ => false) (fun _ => false) (fun _ => false)
        2 1 (fun d => d) (fun d => d / 2) (fun m => 2 * m + 1)
        (fun t (_ : Fin 1) => if t = 0 then (1 : ℚ) else 2) (fun _ => 0)
        (fun _ => 0) 1 0 :=
  c6_no_lookahead (fun _ => 0) (fun _ => false) (fun _ => false) (fun _ => false)
    2 1 (fun d => d) (fun d => d / 2) (fun m => 2 * m + 1)
    (fun _ (_ : Fin 1) => (1 : ℚ)) (fun t (_ : Fin 1) => if t = 0 then (1 : ℚ) else 2)
    (fun _ => 0) (fun _ => 0) (fun _ => 0) (fun _ => 0) 0
    (fun _ _ h => h)
    (fun d => by
      show d ≤ 2 * (d / 2) + 1
      omega)
    (fun t ht a => by
      have h0 : t = 0 := Nat.le_zero.mp ht
      subst h0
      rfl)
    (fun _ _ => rfl) (fun _ _ => rfl) 1 (by omega) 0
